import Mathlib

/-!
# Verification of the SLIP codec (slip.go)

Shallow embedding of the SLIP framing codec: `Writer.WritePacket` assembles a
frame `END, <stuffed payload>, END` in an in-memory buffer and writes it once;
`Reader.ReadPacket` reads one byte at a time, unstuffs escape sequences, and
returns `(p, isPrefix, err)`.

Bytes are modelled as `Nat` (the Go code only compares bytes for equality, so
no wraparound arithmetic occurs). The underlying `io.Reader` is modelled as a
finite list of read results `Rd`, each carrying the count `n` returned by
`Read` (0 or 1 for the one-byte buffer), the byte stored into the buffer, and
the returned error (`none` = nil). An exhausted list means the reader would
block forever, so the decode loop yields `none` in that case.
-/

namespace Slip

/-- 0xC0, indicates end of packet (source constant `END`). -/
def END : Nat := 192

/-- 0xDB, indicates byte stuffing (source constant `ESC`). -/
def ESC : Nat := 219

/-- 0xDC, `ESC ESC_END` means END data byte (source constant `ESC_END`). -/
def ESC_END : Nat := 220

/-- 0xDD, `ESC ESC_ESC` means ESC data byte (source constant `ESC_ESC`). -/
def ESC_ESC : Nat := 221

/-- One result of calling `Read` on the underlying `io.Reader` with the
one-byte buffer `readBuf`: `n` is the returned count, `b` the byte stored in
`readBuf[0]` (meaningful when `n = 1`), `err` the returned error
(`none` models a nil error). -/
structure Rd where
  n : Nat
  b : Nat
  err : Option Nat
  deriving DecidableEq, Repr

/-- The triple returned by `Reader.ReadPacket`: payload bytes `p`, the
`isPrefix` flag (field `isPfx`), and the error (`none` models nil). -/
structure PacketResult where
  p : List Nat
  isPfx : Bool
  err : Option Nat
  deriving DecidableEq, Repr

/-- The byte-by-byte loop of `Reader.ReadPacket` (slip.go lines 117-180),
processing the stream of read results with accumulation buffer `acc`
(the Go `buf`). Returns `none` when the stream of read results is exhausted
without the loop returning (the Go loop would block on the next `Read`). -/
def readPacketLoop : List Rd → List Nat → Option PacketResult
  | [], _ => none
  | r :: rest, acc =>
    if r.n = 0 ∨ r.err ≠ none then some ⟨acc, true, r.err⟩
    else if r.b = END then
      if acc.length > 0 then some ⟨acc, false, none⟩ else readPacketLoop rest acc
    else if r.b = ESC then
      match rest with
      | [] => none
      | r2 :: rest2 =>
        if r2.n = 0 ∨ r2.err ≠ none then some ⟨acc, true, r2.err⟩
        else readPacketLoop rest2
          (acc ++ [if r2.b = ESC_END then END else if r2.b = ESC_ESC then ESC else r2.b])
    else readPacketLoop rest (acc ++ [r.b])

/-- `Reader.ReadPacket` (slip.go line 105): run the loop with an empty
accumulation buffer. -/
def readPacket (stream : List Rd) : Option PacketResult :=
  readPacketLoop stream []

/-- A stream in which every `Read` call succeeds, delivering the bytes of
`bs` one at a time with nil errors. -/
def okStream (bs : List Nat) : List Rd :=
  bs.map (fun b => ⟨1, b, none⟩)

/-- The frame `Writer.WritePacket` assembles in its private `bytes.Buffer`
(slip.go lines 43-94): leading END, then each payload byte stuffed by the
switch, then trailing END. (`bytes.Buffer.WriteByte` never fails, so the
error-check branches around each buffer write are dead.) -/
def writePacketBytes (p : List Nat) : List Nat :=
  (p.foldl (fun buf b =>
    if b = END then buf ++ [ESC, ESC_END]
    else if b = ESC then buf ++ [ESC, ESC_ESC]
    else buf ++ [b]) [END]) ++ [END]

/-- The stuffing of one payload byte, as the spec words it (section 6):
`b` if `b` is neither END nor ESC; `ESC, escaped-END` if `b = END`;
`ESC, escaped-ESC` if `b = ESC`. -/
def stuffByte (b : Nat) : List Nat :=
  if b = END then [ESC, ESC_END]
  else if b = ESC then [ESC, ESC_ESC]
  else [b]

/-- Stuffing of a whole payload, byte by byte. -/
def stuffAll : List Nat → List Nat
  | [] => []
  | b :: p => stuffByte b ++ stuffAll p

/-- `Writer.WritePacket` with the underlying `io.Writer` made explicit:
`calls` is the log of write calls already performed on the output channel and
`errOf` gives the error the channel returns for a given write. The body
assembles the frame in the private buffer and then performs the single
`s.w.Write(buf.Bytes())` (slip.go line 96), whose error is returned. -/
def writePacketImpl (errOf : List Nat → Option Nat) (calls : List (List Nat))
    (p : List Nat) : List (List Nat) × Option Nat :=
  let buf := (p.foldl (fun buf b =>
    if b = END then buf ++ [ESC, ESC_END]
    else if b = ESC then buf ++ [ESC, ESC_ESC]
    else buf ++ [b]) [END]) ++ [END]
  (calls ++ [buf], errOf buf)

/-! ## Step lemmas for the decode loop -/

/-- A failing or empty read (`n == 0 || err != nil`) stops the loop at once,
returning the accumulated bytes, `isPrefix = true` and the read's error. -/
theorem readPacketLoop_fail (r : Rd) (rest : List Rd) (acc : List Nat)
    (h : r.n = 0 ∨ r.err ≠ none) :
    readPacketLoop (r :: rest) acc = some ⟨acc, true, r.err⟩ := by
  rw [readPacketLoop.eq_def]
  simp [h]

/-- An END byte with a non-empty buffer completes the packet. -/
theorem readPacketLoop_end (rest : List Rd) (acc : List Nat) (h : acc ≠ []) :
    readPacketLoop (⟨1, END, none⟩ :: rest) acc = some ⟨acc, false, none⟩ := by
  rw [readPacketLoop.eq_def]
  simp [List.length_pos, h]

/-- An END byte with an empty buffer is discarded and the loop continues. -/
theorem readPacketLoop_end_empty (rest : List Rd) :
    readPacketLoop (⟨1, END, none⟩ :: rest) [] = readPacketLoop rest [] := by
  rw [readPacketLoop.eq_def]
  simp

/-- A failing or empty read right after an ESC byte stops the loop,
returning the accumulated bytes, `isPrefix = true` and the read's error. -/
theorem readPacketLoop_esc_fail (r2 : Rd) (rest : List Rd) (acc : List Nat)
    (h : r2.n = 0 ∨ r2.err ≠ none) :
    readPacketLoop (⟨1, ESC, none⟩ :: r2 :: rest) acc = some ⟨acc, true, r2.err⟩ := by
  rw [readPacketLoop.eq_def]
  simp [END, ESC, h]

/-- A successful read after an ESC: the switch maps `ESC_END` to `END`,
`ESC_ESC` to `ESC`, leaves any other byte alone, and the result is appended. -/
theorem readPacketLoop_esc (x : Nat) (rest : List Rd) (acc : List Nat) :
    readPacketLoop (⟨1, ESC, none⟩ :: ⟨1, x, none⟩ :: rest) acc =
      readPacketLoop rest
        (acc ++ [if x = ESC_END then END else if x = ESC_ESC then ESC else x]) := by
  simp [readPacketLoop, END, ESC]

/-- A byte that is neither END nor ESC is appended literally. -/
theorem readPacketLoop_other (b : Nat) (rest : List Rd) (acc : List Nat)
    (h1 : b ≠ END) (h2 : b ≠ ESC) :
    readPacketLoop (⟨1, b, none⟩ :: rest) acc = readPacketLoop rest (acc ++ [b]) := by
  rw [readPacketLoop.eq_def]
  simp [h1, h2]

/-! ## Encoder lemmas -/

/-- Folding the stuffing switch of `WritePacket` over the payload appends the
stuffed bytes to the buffer. -/
theorem foldl_stuff (p : List Nat) :
    ∀ init : List Nat,
      p.foldl (fun buf b =>
        if b = END then buf ++ [ESC, ESC_END]
        else if b = ESC then buf ++ [ESC, ESC_ESC]
        else buf ++ [b]) init = init ++ stuffAll p := by
  induction p with
  | nil => intro init; simp [stuffAll]
  | cons b p ih =>
    intro init
    rw [List.foldl_cons, stuffAll]
    unfold stuffByte
    by_cases h1 : b = END
    · rw [if_pos h1, if_pos h1, ih, ← List.append_assoc]
    · by_cases h2 : b = ESC
      · rw [if_neg h1, if_neg h1, if_pos h2, if_pos h2, ih, ← List.append_assoc]
      · rw [if_neg h1, if_neg h1, if_neg h2, if_neg h2, ih, ← List.append_assoc]

/-- The frame assembled by `WritePacket` is the leading END, the stuffed
payload, and the trailing END. -/
theorem writePacketBytes_eq (p : List Nat) :
    writePacketBytes p = END :: (stuffAll p ++ [END]) := by
  rw [writePacketBytes, foldl_stuff]
  simp

theorem stuffByte_end : stuffByte END = [ESC, ESC_END] := by
  simp [stuffByte]

theorem stuffByte_esc : stuffByte ESC = [ESC, ESC_ESC] := by
  simp [stuffByte, ESC, END]

theorem stuffByte_other (b : Nat) (h1 : b ≠ END) (h2 : b ≠ ESC) :
    stuffByte b = [b] := by
  simp [stuffByte, h1, h2]

theorem okStream_nil : okStream [] = [] := rfl

theorem okStream_cons (b : Nat) (bs : List Nat) :
    okStream (b :: bs) = ⟨1, b, none⟩ :: okStream bs := rfl

theorem okStream_append (xs ys : List Nat) :
    okStream (xs ++ ys) = okStream xs ++ okStream ys := by
  simp [okStream]

/-! ## Decoder lemmas -/

/-- Decoding a stuffed payload followed by the trailing END appends the
payload to the accumulation buffer and completes the packet (provided the
buffer does not end up empty at the END). -/
theorem readPacketLoop_stuffAll (p : List Nat) :
    ∀ acc : List Nat, acc ++ p ≠ [] →
      readPacketLoop (okStream (stuffAll p ++ [END])) acc =
        some ⟨acc ++ p, false, none⟩ := by
  induction p with
  | nil =>
    intro acc h
    rw [List.append_nil] at h
    simpa [stuffAll, okStream] using readPacketLoop_end [] acc h
  | cons b p ih =>
    intro acc h
    have hstep : stuffAll (b :: p) ++ [END] = stuffByte b ++ (stuffAll p ++ [END]) := by
      simp [stuffAll]
    rw [hstep, okStream_append]
    by_cases h1 : b = END
    · subst h1
      rw [stuffByte_end, okStream_cons, okStream_cons, okStream_nil]
      simp only [List.nil_append, List.cons_append]
      rw [readPacketLoop_esc]
      have hb : (if (ESC_END : Nat) = ESC_END then END
          else if (ESC_END : Nat) = ESC_ESC then ESC else ESC_END) = END := by simp
      rw [hb, ih (acc ++ [END]) (by simp)]
      simp
    · by_cases h2 : b = ESC
      · subst h2
        rw [stuffByte_esc, okStream_cons, okStream_cons, okStream_nil]
        simp only [List.nil_append, List.cons_append]
        rw [readPacketLoop_esc]
        have hb : (if (ESC_ESC : Nat) = ESC_END then END
            else if (ESC_ESC : Nat) = ESC_ESC then ESC else ESC_ESC) = ESC := by
          simp [ESC_ESC, ESC_END]
        rw [hb, ih (acc ++ [ESC]) (by simp)]
        simp
      · rw [stuffByte_other b h1 h2, okStream_cons, okStream_nil]
        simp only [List.nil_append, List.cons_append]
        rw [readPacketLoop_other b _ acc h1 h2, ih (acc ++ [b]) (by simp)]
        simp

/-- The loop returns a result with `isPrefix = false` only through the END
branch with a non-empty buffer, so such a packet is never empty. -/
theorem readPacketLoop_complete_nonempty :
    ∀ (stream : List Rd) (acc : List Nat) (r : PacketResult),
      readPacketLoop stream acc = some r → r.isPfx = false → r.p ≠ []
  | [], acc, r, h, _ => by simp [readPacketLoop] at h
  | rd :: rest, acc, r, h, hpfx => by
    rw [readPacketLoop.eq_def] at h
    by_cases hf : rd.n = 0 ∨ rd.err ≠ none
    · simp only [if_pos hf] at h
      cases h
      simp at hpfx
    · simp only [if_neg hf] at h
      by_cases hEnd : rd.b = END
      · simp only [if_pos hEnd] at h
        by_cases hlen : acc.length > 0
        · simp only [if_pos hlen] at h
          cases h
          simpa using List.length_pos.mp hlen
        · simp only [if_neg hlen] at h
          exact readPacketLoop_complete_nonempty rest acc r h hpfx
      · by_cases hEsc : rd.b = ESC
        · simp only [if_neg hEnd, if_pos hEsc] at h
          match rest with
          | [] => simp at h
          | r2 :: rest2 =>
            by_cases hf2 : r2.n = 0 ∨ r2.err ≠ none
            · simp only [if_pos hf2] at h
              cases h
              simp at hpfx
            · simp only [if_neg hf2] at h
              exact readPacketLoop_complete_nonempty rest2 _ r h hpfx
        · simp only [if_neg hEnd, if_neg hEsc] at h
          exact readPacketLoop_complete_nonempty rest _ r h hpfx

/-- Leading END bytes are discarded while the buffer is empty. -/
theorem readPacketLoop_skip_ends (k : Nat) (rest : List Rd) :
    readPacketLoop (okStream (List.replicate k END) ++ rest) [] =
      readPacketLoop rest [] := by
  induction k with
  | zero => simp [okStream]
  | succ k ih =>
    rw [List.replicate_succ, okStream_cons, List.cons_append, readPacketLoop_end_empty]
    exact ih

/-! ## Reserved bytes inside a frame -/

/-- Decidable check that every occurrence of ESC in a byte list is
immediately followed by ESC_END or ESC_ESC (in particular ESC is not the
last byte). -/
def escOk : List Nat → Bool
  | [] => true
  | [b] => decide (b ≠ ESC)
  | b :: c :: rest =>
    if b = ESC then (decide (c = ESC_END) || decide (c = ESC_ESC)) && escOk rest
    else escOk (c :: rest)

/-- `escOk` indeed guarantees: any position holding ESC is followed by a
position (in range) holding ESC_END or ESC_ESC. -/
theorem escOk_getElem :
    ∀ (l : List Nat), escOk l = true → ∀ i : Nat, l[i]? = some ESC →
      l[i + 1]? = some ESC_END ∨ l[i + 1]? = some ESC_ESC
  | [], _, i, h => by simp at h
  | [b], hok, i, h => by
    simp [escOk] at hok
    match i with
    | 0 =>
      simp at h
      exact absurd h hok
    | i + 1 => simp at h
  | b :: c :: rest, hok, i, h => by
    by_cases hb : b = ESC
    · rw [escOk, if_pos hb] at hok
      simp only [Bool.and_eq_true, Bool.or_eq_true, decide_eq_true_eq] at hok
      match i with
      | 0 =>
        rcases hok.1 with h1 | h1
        · left; simp [h1]
        · right; simp [h1]
      | 1 =>
        simp at h
        rcases hok.1 with h1 | h1 <;> rw [h1] at h <;> simp [ESC, ESC_END, ESC_ESC] at h
      | i + 2 =>
        have := escOk_getElem rest hok.2 i (by simpa using h)
        simpa using this
    · rw [escOk, if_neg hb] at hok
      match i with
      | 0 =>
        simp at h
        exact absurd h hb
      | i + 1 =>
        have := escOk_getElem (c :: rest) hok i (by simpa using h)
        simpa using this

theorem escOk_cons_ne (b : Nat) (l : List Nat) (hb : b ≠ ESC) :
    escOk (b :: l) = escOk l := by
  cases l with
  | nil => simp [escOk, hb]
  | cons c rest => simp [escOk, hb]

/-- The stuffed payload followed by the trailing END satisfies `escOk`. -/
theorem escOk_stuffAll (p : List Nat) : escOk (stuffAll p ++ [END]) = true := by
  induction p with
  | nil => decide
  | cons b p ih =>
    have hstep : stuffAll (b :: p) ++ [END] = stuffByte b ++ (stuffAll p ++ [END]) := by
      simp [stuffAll]
    rw [hstep]
    by_cases h1 : b = END
    · subst h1
      show escOk (ESC :: ESC_END :: (stuffAll p ++ [END])) = true
      rw [escOk, if_pos rfl, ih]
      simp
    · by_cases h2 : b = ESC
      · subst h2
        show escOk (ESC :: ESC_ESC :: (stuffAll p ++ [END])) = true
        rw [escOk, if_pos rfl, ih]
        simp
      · rw [stuffByte_other b h1 h2, List.singleton_append, escOk_cons_ne b _ h2, ih]

/-- The stuffed payload never contains a literal END byte. -/
theorem end_not_mem_stuffAll (p : List Nat) : END ∉ stuffAll p := by
  induction p with
  | nil => simp [stuffAll]
  | cons b p ih =>
    simp only [stuffAll, List.mem_append, not_or]
    refine ⟨?_, ih⟩
    by_cases h1 : b = END
    · subst h1
      rw [stuffByte_end]
      decide
    · by_cases h2 : b = ESC
      · subst h2
        rw [stuffByte_esc]
        decide
      · rw [stuffByte_other b h1 h2]
        simp
        exact fun hh => h1 hh.symm

/-! ## Claims -/

/-- C1 (counterexample): the round-trip claim fails at the concrete input
`p = []`. `WritePacket([])` produces the frame `[END, END]`, and `ReadPacket`
on exactly that stream discards both ENDs (empty buffer) and never returns a
complete packet: it is still waiting for more input when the frame is
consumed, so decoding does not yield `[]` as a complete packet. -/
theorem c1_roundtrip_empty_counterexample :
    readPacket (okStream (writePacketBytes [])) = none ∧
    readPacket (okStream (writePacketBytes [])) ≠ some ⟨[], false, none⟩ := by
  constructor
  · decide
  · decide

/-- C1 (amended): for every NONEMPTY byte sequence `p` — including
single-byte sequences and sequences containing END (0xC0) or ESC (0xDB)
bytes at any position and frequency — decoding the frame produced by
`WritePacket(p)` with `ReadPacket` yields exactly `p` as a complete packet
(`isPrefix = false`, nil error). The empty sequence is excluded: its frame
`[END, END]` is absorbed without producing a complete packet. -/
theorem c1_roundtrip_amended (p : List Nat) (hp : p ≠ []) :
    readPacket (okStream (writePacketBytes p)) = some ⟨p, false, none⟩ := by
  rw [writePacketBytes_eq, readPacket, okStream_cons, readPacketLoop_end_empty]
  simpa using readPacketLoop_stuffAll p [] (by simpa using hp)

/-- Witness for C1 (amended) at `p = [END]`. -/
theorem c1_roundtrip_amended_witness :
    readPacket (okStream (writePacketBytes [END])) = some ⟨[END], false, none⟩ :=
  c1_roundtrip_amended [END] (by decide)

/-- C2: the byte sequence `WritePacket(p)` assembles and writes is exactly
the leading END, then each payload byte stuffed (END ↦ ESC,ESC_END;
ESC ↦ ESC,ESC_ESC; anything else literal), then a trailing END; in
particular `WritePacket([0xC0])` writes `[0xC0, 0xDB, 0xDC, 0xC0]`,
`WritePacket([0xDB])` writes `[0xC0, 0xDB, 0xDD, 0xC0]`, and
`WritePacket([])` writes `[0xC0, 0xC0]`. -/
theorem c2_frame_layout :
    (∀ p : List Nat, writePacketBytes p = END :: (stuffAll p ++ [END])) ∧
    writePacketBytes [0xC0] = [0xC0, 0xDB, 0xDC, 0xC0] ∧
    writePacketBytes [0xDB] = [0xC0, 0xDB, 0xDD, 0xC0] ∧
    writePacketBytes [] = [0xC0, 0xC0] :=
  ⟨writePacketBytes_eq, by decide, by decide, by decide⟩

/-- C3: `ReadPacket` never returns a zero-length packet with
`isPrefix = false`; a stream consisting solely of END bytes produces no
complete packet (the loop consumes them all and keeps waiting), and if such
a stream then fails, `ReadPacket` returns the empty prefix with
`isPrefix = true` and the error. -/
theorem c3_no_empty_complete_packet :
    (∀ (stream : List Rd) (r : PacketResult),
      readPacket stream = some r → r.isPfx = false → r.p ≠ []) ∧
    (∀ k : Nat, readPacket (okStream (List.replicate k END)) = none) ∧
    (∀ (k e : Nat) (rest : List Rd),
      readPacket (okStream (List.replicate k END) ++ ⟨0, 0, some e⟩ :: rest) =
        some ⟨[], true, some e⟩) := by
  refine ⟨fun stream r h => readPacketLoop_complete_nonempty stream [] r h, ?_, ?_⟩
  · intro k
    have h := readPacketLoop_skip_ends k []
    rw [List.append_nil] at h
    exact h
  · intro k e rest
    rw [readPacket, readPacketLoop_skip_ends k (⟨0, 0, some e⟩ :: rest)]
    exact readPacketLoop_fail _ _ _ (Or.inl rfl)

/-- Witness for C3: a complete packet is nonempty at a concrete stream;
2 END bytes alone yield no packet; 2 END bytes then a failing read yield
the empty prefix with the error. -/
theorem c3_no_empty_complete_packet_witness :
    readPacket (okStream [65, END]) = some ⟨[65], false, none⟩ ∧
    ([65] : List Nat) ≠ [] ∧
    readPacket (okStream (List.replicate 2 END)) = none ∧
    readPacket (okStream (List.replicate 2 END) ++ ⟨0, 0, some 7⟩ :: []) =
      some ⟨[], true, some 7⟩ :=
  ⟨by decide,
   c3_no_empty_complete_packet.1 (okStream [65, END]) ⟨[65], false, none⟩ (by decide) rfl,
   c3_no_empty_complete_packet.2.1 2,
   c3_no_empty_complete_packet.2.2 2 7 []⟩

/-- C4: when an ESC byte is followed by a byte `x` that is neither
ESC_END (0xDC) nor ESC_ESC (0xDD), the loop appends `x` itself to the
packet being accumulated, raises no error, and continues decoding the same
packet with the extended buffer. -/
theorem c4_escape_leniency (x : Nat) (acc : List Nat) (rest : List Rd)
    (h1 : x ≠ ESC_END) (h2 : x ≠ ESC_ESC) :
    readPacketLoop (⟨1, ESC, none⟩ :: ⟨1, x, none⟩ :: rest) acc =
      readPacketLoop rest (acc ++ [x]) := by
  rw [readPacketLoop_esc, if_neg h1, if_neg h2]

/-- Witness for C4 at `x = 65` after one accumulated byte. -/
theorem c4_escape_leniency_witness :
    readPacketLoop [⟨1, ESC, none⟩, ⟨1, 65, none⟩] [7] =
      readPacketLoop [] ([7] ++ [65]) :=
  c4_escape_leniency 65 [7] [] (by decide) (by decide)

/-- C5: if a read fails (non-nil error) mid-frame — in the main loop or on
the byte read immediately following an ESC — the loop returns exactly the
bytes accumulated so far, with `isPrefix = true` and that non-nil error. -/
theorem c5_truncation_signaling (acc : List Nat) (e : Nat) (rd : Rd)
    (rest : List Rd) (h : rd.err = some e) :
    readPacketLoop (rd :: rest) acc = some ⟨acc, true, some e⟩ ∧
    readPacketLoop (⟨1, ESC, none⟩ :: rd :: rest) acc = some ⟨acc, true, some e⟩ := by
  constructor
  · rw [readPacketLoop_fail rd rest acc (Or.inr (by simp [h])), h]
  · rw [readPacketLoop_esc_fail rd rest acc (Or.inr (by simp [h])), h]

/-- Witness for C5 with one accumulated byte and error code 3. -/
theorem c5_truncation_signaling_witness :
    readPacketLoop [(⟨0, 0, some 3⟩ : Rd)] [7] = some ⟨[7], true, some 3⟩ ∧
    readPacketLoop [⟨1, ESC, none⟩, ⟨0, 0, some 3⟩] [7] = some ⟨[7], true, some 3⟩ :=
  c5_truncation_signaling [7] 3 ⟨0, 0, some 3⟩ [] rfl

/-- C6: in the frame produced by `WritePacket(p)` the byte END occurs
exactly twice — as the first and as the last byte — and every occurrence of
ESC inside the frame is immediately followed by ESC_END (0xDC) or
ESC_ESC (0xDD); no reserved byte appears unescaped in the stuffed payload. -/
theorem c6_reserved_bytes_escaped (p : List Nat) :
    (writePacketBytes p).count END = 2 ∧
    (writePacketBytes p).head? = some END ∧
    (writePacketBytes p).getLast? = some END ∧
    (∀ i : Nat, (writePacketBytes p)[i]? = some ESC →
      (writePacketBytes p)[i + 1]? = some ESC_END ∨
      (writePacketBytes p)[i + 1]? = some ESC_ESC) := by
  rw [writePacketBytes_eq]
  refine ⟨?_, rfl, ?_, ?_⟩
  · have h0 : (stuffAll p).count END = 0 :=
      List.count_eq_zero.mpr (end_not_mem_stuffAll p)
    simp [List.count_cons, List.count_append, h0]
  · rw [show END :: (stuffAll p ++ [END]) = (END :: stuffAll p) ++ [END] by simp]
    exact List.getLast?_concat _
  · intro i h
    cases i with
    | zero =>
      rw [List.getElem?_cons_zero] at h
      simp [END, ESC] at h
    | succ i =>
      rw [List.getElem?_cons_succ] at h
      rw [List.getElem?_cons_succ]
      exact escOk_getElem _ (escOk_stuffAll p) i h

/-- Witness for C6 at `p = [ESC]`: position 1 of the frame holds ESC and
position 2 holds ESC_ESC. -/
theorem c6_reserved_bytes_escaped_witness :
    (writePacketBytes [ESC])[1]? = some ESC ∧
    ((writePacketBytes [ESC])[2]? = some ESC_END ∨
      (writePacketBytes [ESC])[2]? = some ESC_ESC) :=
  ⟨by decide, (c6_reserved_bytes_escaped [ESC]).2.2.2 1 (by decide)⟩

/-- C7: `WritePacket` performs exactly one write call on the underlying
output channel — appending exactly one entry, the fully assembled frame, to
the log of write calls — and that frame is complete (leading END, stuffed
payload, trailing END) before the write happens; the returned error is
exactly the error the channel gives for that single write (nil on success),
propagated unmodified with no retry. -/
theorem c7_single_write (errOf : List Nat → Option Nat)
    (calls : List (List Nat)) (p : List Nat) :
    (writePacketImpl errOf calls p).1 = calls ++ [writePacketBytes p] ∧
    (writePacketImpl errOf calls p).2 = errOf (writePacketBytes p) ∧
    writePacketBytes p = END :: (stuffAll p ++ [END]) :=
  ⟨rfl, rfl, writePacketBytes_eq p⟩

/-- C8: a read that delivers one byte together with a non-nil error makes
the loop return the previously accumulated payload with `isPrefix = true`
and that error; the byte delivered alongside the error is discarded (the
returned packet is exactly the prior buffer), both in the main loop and on
the read following an ESC. -/
theorem c8_error_byte_discarded (acc : List Nat) (b e : Nat) (rest : List Rd) :
    readPacketLoop (⟨1, b, some e⟩ :: rest) acc = some ⟨acc, true, some e⟩ ∧
    readPacketLoop (⟨1, ESC, none⟩ :: ⟨1, b, some e⟩ :: rest) acc =
      some ⟨acc, true, some e⟩ :=
  ⟨readPacketLoop_fail _ _ _ (Or.inr (by simp)),
   readPacketLoop_esc_fail _ _ _ (Or.inr (by simp))⟩

/-- C9: a read that returns zero bytes with a nil error makes the loop stop
and return the bytes accumulated so far with `isPrefix = true` and a nil
error — so `isPrefix = true` does not by itself guarantee a non-nil error. -/
theorem c9_zero_read_nil_error (acc : List Nat) (b : Nat) (rest : List Rd) :
    readPacketLoop (⟨0, b, none⟩ :: rest) acc = some ⟨acc, true, none⟩ :=
  readPacketLoop_fail _ _ _ (Or.inl rfl)

/-- C10: after an ESC byte the next byte loses any delimiter or escape
role: a following END is appended literally without terminating the packet,
and a following ESC is appended literally without starting a new escape
sequence; in both cases the loop resumes with a fresh read on the rest of
the stream. -/
theorem c10_escaped_byte_literal (acc : List Nat) (rest : List Rd) :
    readPacketLoop (⟨1, ESC, none⟩ :: ⟨1, END, none⟩ :: rest) acc =
      readPacketLoop rest (acc ++ [END]) ∧
    readPacketLoop (⟨1, ESC, none⟩ :: ⟨1, ESC, none⟩ :: rest) acc =
      readPacketLoop rest (acc ++ [ESC]) := by
  constructor
  · rw [readPacketLoop_esc]
    norm_num [END, ESC, ESC_END, ESC_ESC]
  · rw [readPacketLoop_esc]
    norm_num [END, ESC, ESC_END, ESC_ESC]

end Slip
